import Mathlib

/-!
Verification of the restriction-to-flow compiler of `pps-game`
(`simulation/server/controller/RestrictionForTimeFrameController.py` and
`simulation/server/gamma_analysis/integrated_gamma_control.py`) against its
natural-language specification.

Python integers are modelled by `Nat`/`Int`, Python floats that only ever hold
exact values (priorities, gamma values, means) by `ℚ`.  Edge tuples
`(source, dest, lower, cap, cost)` become the `Edge` structure.  The mutable
controller plus graph-processor state becomes explicit state passing.  The
external max-flow capability (`networkx.maximum_flow_value`) is a function
parameter of the batch-application function.
-/

namespace PPSGame

/-- A time-expanded edge tuple `(source_id, dest_id, lower_bound, capacity, cost)`,
as stored in `graph_processor.ts_edges`. -/
structure Edge where
  source : Nat
  dest : Nat
  lower : Int
  cap : Int
  cost : Int
deriving DecidableEq, Repr

/-- `RestrictionForTimeFrameController._get_node_time` (lines 267-269):
`node_id // self._M - (1 if node_id % self._M == 0 else 0)`. -/
def get_node_time (M node_id : Nat) : Nat :=
  node_id / M - (if node_id % M = 0 then 1 else 0)

/-- `RestrictionForTimeFrameController._get_node_coordinates` (lines 271-273):
`node_id % self._M if node_id % self._M != 0 else self._M`. -/
def get_node_coordinates (M node_id : Nat) : Nat :=
  if node_id % M ≠ 0 then node_id % M else M

/-- The spec's canonical indexer (§4.1): `time_of(id) = (id-1) div M`. -/
def time_of (M node_id : Nat) : Nat := (node_id - 1) / M

/-- The spec's canonical indexer (§4.1): `spatial_of(id) = ((id-1) mod M) + 1`. -/
def spatial_of (M node_id : Nat) : Nat := (node_id - 1) % M + 1

/-- `RestrictionForTimeFrameController.calculate_virtual_flow` (lines 279-283):
`max(0, max_flow - U)`. -/
def calculate_virtual_flow (max_flow U : Int) : Int :=
  max 0 (max_flow - U)

theorem get_node_time_eq {M node_id : Nat} (hM : 1 ≤ M) (hid : 1 ≤ node_id) :
    get_node_time M node_id = time_of M node_id := by
  obtain ⟨k, rfl⟩ : ∃ k, node_id = k + 1 :=
    ⟨node_id - 1, (Nat.succ_pred_eq_of_pos hid).symm⟩
  have hM0 : 0 < M := hM
  by_cases h : (k + 1) % M = 0
  · have hdvd : M ∣ k + 1 := Nat.dvd_iff_mod_eq_zero.mpr h
    simp [get_node_time, time_of, Nat.succ_div, h, hdvd]
  · have hdvd : ¬ M ∣ k + 1 := fun hc => h (Nat.dvd_iff_mod_eq_zero.mp hc)
    simp [get_node_time, time_of, Nat.succ_div, h, hdvd]

theorem get_node_coordinates_eq {M node_id : Nat} (hM : 1 ≤ M) (hid : 1 ≤ node_id) :
    get_node_coordinates M node_id = spatial_of M node_id := by
  obtain ⟨k, rfl⟩ : ∃ k, node_id = k + 1 :=
    ⟨node_id - 1, (Nat.succ_pred_eq_of_pos hid).symm⟩
  have hM0 : 0 < M := hM
  rcases eq_or_lt_of_le hM with hM1 | hM2
  · simp [get_node_coordinates, spatial_of, ← hM1, Nat.mod_one]
  · have h1 : 1 % M = 1 := Nat.mod_eq_of_lt hM2
    have hkey : (k + 1) % M = (k % M + 1) % M := by
      rw [Nat.add_mod, h1]
    have hr : k % M < M := Nat.mod_lt _ hM0
    rcases lt_or_eq_of_le (Nat.succ_le_of_lt hr) with h | h
    · have hne : (k % M + 1) % M = k % M + 1 := Nat.mod_eq_of_lt h
      simp [get_node_coordinates, spatial_of, hkey, hne]
    · have h' : k % M + 1 = M := by omega
      have hz : (k % M + 1) % M = 0 := by rw [h', Nat.mod_self]
      simp [get_node_coordinates, spatial_of, hkey, hz, h']

/-- C9: for every node id ≥ 1 and spatial-node count M ≥ 1, the implementation's
time helper (`id div M`, minus 1 when `id mod M = 0`) equals the canonical
`time_of(id) = (id-1) div M`, and the implementation's coordinate helper
(`id mod M`, or `M` when the remainder is 0) equals the canonical
`spatial_of(id) = ((id-1) mod M) + 1`. -/
theorem C9_node_indexers_agree {M node_id : Nat} (hM : 1 ≤ M) (hid : 1 ≤ node_id) :
    get_node_time M node_id = time_of M node_id ∧
    get_node_coordinates M node_id = spatial_of M node_id :=
  ⟨get_node_time_eq hM hid, get_node_coordinates_eq hM hid⟩

theorem C9_node_indexers_agree_witness :
    get_node_time 3 6 = time_of 3 6 ∧ get_node_coordinates 3 6 = spatial_of 3 6 :=
  C9_node_indexers_agree (by decide) (by decide)

/-- C7: the computed virtual flow is `max(0, F - U)`; in particular
`virtual_flow(5, 3) = 2`, `virtual_flow(3, 5) = 0`, `virtual_flow(10, 10) = 0`. -/
theorem C7_virtual_flow_arithmetic (F U : Int) (hF : 0 ≤ F) (hU : 0 ≤ U) :
    calculate_virtual_flow F U = max 0 (F - U) ∧
    calculate_virtual_flow 5 3 = 2 ∧
    calculate_virtual_flow 3 5 = 0 ∧
    calculate_virtual_flow 10 10 = 0 :=
  ⟨rfl, by decide, by decide, by decide⟩

theorem C7_virtual_flow_arithmetic_witness :
    calculate_virtual_flow 5 3 = max 0 (5 - 3) :=
  ((C7_virtual_flow_arithmetic 5 3 (by decide) (by decide)).1)

/-- `RestrictionForTimeFrameController.identify_restricted_edges` (lines 315-344):
for each edge of `ts_edges`, compute the spatial base pair and the two time
indices with the legacy helpers; keep the edge (with lower bound written as 0)
when the base pair is restricted and `t1 < end_time_frame and t2 > start_time_frame`. -/
def identify_restricted_edges (M : Nat) (restriction_edges : List (Nat × Nat))
    (start_time_frame end_time_frame : Int) (ts_edges : List Edge) : List Edge :=
  ts_edges.filterMap fun e =>
    let t1 := get_node_time M e.source
    let t2 := get_node_time M e.dest
    let base_edge := (get_node_coordinates M e.source, get_node_coordinates M e.dest)
    if base_edge ∈ restriction_edges ∧ (t1 : Int) < end_time_frame ∧ start_time_frame < (t2 : Int)
    then some ⟨e.source, e.dest, 0, e.cap, e.cost⟩
    else none

theorem identify_restricted_edges_lower {M : Nat} {R : List (Nat × Nat)} {s t : Int}
    {TSG : List Edge} {e : Edge} (he : e ∈ identify_restricted_edges M R s t TSG) :
    e.lower = 0 := by
  simp only [identify_restricted_edges, List.mem_filterMap] at he
  obtain ⟨e0, -, he0⟩ := he
  by_cases h : (get_node_coordinates M e0.source, get_node_coordinates M e0.dest) ∈ R ∧
      ((get_node_time M e0.source : Int) < t ∧ s < (get_node_time M e0.dest : Int))
  · simp only [h, if_pos, and_true, true_and] at he0
    cases he0
    rfl
  · simp [h] at he0

theorem identify_restricted_edges_mem {M : Nat} {R : List (Nat × Nat)} {s t : Int}
    {TSG : List Edge} (hlow : ∀ e ∈ TSG, e.lower = 0) {e : Edge}
    (he : e ∈ identify_restricted_edges M R s t TSG) : e ∈ TSG := by
  simp only [identify_restricted_edges, List.mem_filterMap] at he
  obtain ⟨e0, he0mem, he0⟩ := he
  by_cases h : (get_node_coordinates M e0.source, get_node_coordinates M e0.dest) ∈ R ∧
      ((get_node_time M e0.source : Int) < t ∧ s < (get_node_time M e0.dest : Int))
  · simp only [h, if_pos, and_true, true_and] at he0
    cases he0
    have : e0 = ⟨e0.source, e0.dest, 0, e0.cap, e0.cost⟩ := by
      have h0 := hlow e0 he0mem
      cases e0
      simp_all
    rw [← this]
    exact he0mem
  · simp [h] at he0

theorem filterMap_guard_eq_filter {α : Type} (q p : α → Prop) [DecidablePred q]
    [DecidablePred p] (g : α → α) (l : List α) (hg : ∀ a ∈ l, g a = a)
    (hqp : ∀ a ∈ l, q a ↔ p a) :
    (l.filterMap fun a => if q a then some (g a) else none) =
      l.filter fun a => decide (p a) := by
  induction l with
  | nil => rfl
  | cons a l ih =>
    have hga := hg a (List.mem_cons_self a l)
    have hqpa := hqp a (List.mem_cons_self a l)
    have ihl := ih (fun b hb => hg b (List.mem_cons_of_mem a hb))
      (fun b hb => hqp b (List.mem_cons_of_mem a hb))
    by_cases h : q a
    · have hp : p a := hqpa.mp h
      simp only [List.filterMap_cons, List.filter_cons, if_pos h, hga]
      rw [if_pos (by simp [hp]), ihl]
    · have hp : ¬ p a := fun hp => h (hqpa.mpr hp)
      simp only [List.filterMap_cons, List.filter_cons, if_neg h]
      rw [if_neg (by simp [hp])]
      exact ihl

/-- C4: omega extraction includes an edge exactly when its spatial base pair is
restricted and `time_of(source) < end ∧ time_of(dest) > start` (strict
open-interval overlap, stated with the spec's canonical indexers); on the spec's
concrete `M = 3` example with timeframe `[0, 3]` it returns exactly
`{(4,5,0,1,5), (7,8,0,1,5)}`, excluding `(1,2,0,1,5)` at time 0. -/
theorem C4_omega_extraction (M : Nat) (R : List (Nat × Nat)) (s t : Int)
    (TSG : List Edge) (hM : 1 ≤ M)
    (hid : ∀ e ∈ TSG, 1 ≤ e.source ∧ 1 ≤ e.dest)
    (hlow : ∀ e ∈ TSG, e.lower = 0) :
    identify_restricted_edges M R s t TSG =
      TSG.filter (fun e => decide ((spatial_of M e.source, spatial_of M e.dest) ∈ R ∧
        (time_of M e.source : Int) < t ∧ s < (time_of M e.dest : Int))) ∧
    identify_restricted_edges 3 [(1, 2)] 0 3
      [⟨1, 4, 0, 1, 10⟩, ⟨2, 5, 0, 1, 10⟩, ⟨4, 7, 0, 1, 10⟩, ⟨5, 8, 0, 1, 10⟩,
       ⟨1, 2, 0, 1, 5⟩, ⟨4, 5, 0, 1, 5⟩, ⟨7, 8, 0, 1, 5⟩] =
      [⟨4, 5, 0, 1, 5⟩, ⟨7, 8, 0, 1, 5⟩] := by
  constructor
  · have hrfl : identify_restricted_edges M R s t TSG =
        TSG.filterMap (fun e =>
          if ((get_node_coordinates M e.source, get_node_coordinates M e.dest) ∈ R ∧
              (get_node_time M e.source : Int) < t ∧ s < (get_node_time M e.dest : Int))
          then some (⟨e.source, e.dest, 0, e.cap, e.cost⟩ : Edge) else none) := rfl
    rw [hrfl]
    apply filterMap_guard_eq_filter
    · intro a ha
      have h0 := hlow a ha
      cases a
      simp_all
    · intro a ha
      rw [get_node_time_eq hM (hid a ha).1, get_node_time_eq hM (hid a ha).2,
        get_node_coordinates_eq hM (hid a ha).1, get_node_coordinates_eq hM (hid a ha).2]
  · decide

theorem C4_omega_extraction_witness :
    identify_restricted_edges 3 [(1, 2)] 0 3
      [⟨1, 4, 0, 1, 10⟩, ⟨2, 5, 0, 1, 10⟩, ⟨4, 7, 0, 1, 10⟩, ⟨5, 8, 0, 1, 10⟩,
       ⟨1, 2, 0, 1, 5⟩, ⟨4, 5, 0, 1, 5⟩, ⟨7, 8, 0, 1, 5⟩] =
      [⟨4, 5, 0, 1, 5⟩, ⟨7, 8, 0, 1, 5⟩] :=
  (C4_omega_extraction 3 [(1, 2)] 0 3
    [⟨1, 4, 0, 1, 10⟩, ⟨2, 5, 0, 1, 10⟩, ⟨4, 7, 0, 1, 10⟩, ⟨5, 8, 0, 1, 10⟩,
     ⟨1, 2, 0, 1, 5⟩, ⟨4, 5, 0, 1, 5⟩, ⟨7, 8, 0, 1, 5⟩]
    (by decide) (by decide) (by decide)).2

/-- `RestrictionForTimeFrameController.calculate_default_gamma` (lines 142-151):
an empty `TSG` returns `min_gamma` directly; otherwise the collected costs are
averaged (with a fallback of 10 for a costless list) and the result is
`max(k * avg_cost * max(1.0, priority), min_gamma)`. -/
def calculate_default_gamma (TSG : List Edge) (priority k min_gamma : ℚ) : ℚ :=
  if TSG = [] then min_gamma
  else
    let costs := TSG.map fun e => e.cost
    let avg_cost : ℚ := if costs = [] then 10 else (costs.sum : ℚ) / (costs.length : ℚ)
    let gamma := k * avg_cost * max 1 priority
    max gamma min_gamma

/-- C8 counterexample: the claim's formula (mean falling back to the constant 10
when there are no costed edges, then `k`, priority and the floor applied) gives
1000 on the empty edge list with `k = 100`, but the code returns `min_gamma = 200`
directly, skipping the `k`-factor fallback. -/
theorem C8_counterexample :
    calculate_default_gamma [] 1 100 200 ≠ max (100 * 10 * max 1 1) (200 : ℚ) := by
  norm_num [calculate_default_gamma]

/-- C8 amended: for a non-empty edge list the resolved default gamma equals
`max(k * mean_cost * max(1, priority), min_gamma)` with `mean_cost` the mean
over all edges; for an empty edge list the code returns `min_gamma` directly
(the `k`-factor/priority fallback of the claim is not applied); in every case
the auto-derived gamma is at least the configured floor `min_gamma`. -/
theorem C8_gamma_resolution (TSG : List Edge) (priority k min_gamma : ℚ) :
    (TSG ≠ [] → calculate_default_gamma TSG priority k min_gamma =
      max (k * (((TSG.map fun e => e.cost).sum : ℚ) / (TSG.length : ℚ)) * max 1 priority)
        min_gamma) ∧
    (TSG = [] → calculate_default_gamma TSG priority k min_gamma = min_gamma) ∧
    min_gamma ≤ calculate_default_gamma TSG priority k min_gamma := by
  refine ⟨fun hne => ?_, fun he => by simp [calculate_default_gamma, he], ?_⟩
  · have hmapne : TSG.map (fun e => e.cost) ≠ [] := by
      simpa using hne
    simp [calculate_default_gamma, hne, hmapne]
  · by_cases he : TSG = []
    · simp [calculate_default_gamma, he]
    · simp only [calculate_default_gamma, he, if_neg, if_false]
      exact le_max_right _ _

theorem C8_gamma_resolution_witness :
    calculate_default_gamma [⟨1, 2, 0, 1, 6⟩] 1 2 200 =
      max (2 * (((([⟨1, 2, 0, 1, 6⟩] : List Edge).map fun e => e.cost).sum : ℚ) /
        ((([⟨1, 2, 0, 1, 6⟩] : List Edge).length : ℚ))) * max 1 1) 200 :=
  (C8_gamma_resolution [⟨1, 2, 0, 1, 6⟩] 1 2 200).1 (by simp)

/-- An escape-edge record as collected by `detect_escape_edges`
(`integrated_gamma_control.py`): endpoint pair plus its gamma cost. -/
structure EscapeEdgeRec where
  source : Nat
  dest : Nat
  cost : Int
deriving DecidableEq, Repr

/-- A violation record as produced by `analyze_escape_edge_flow`
(lines 112-120 of `integrated_gamma_control.py`). -/
structure Violation where
  source : Nat
  dest : Nat
  flow : Int
  gamma_cost : Int
  penalty_cost : Int
deriving DecidableEq, Repr

/-- The nested flow-dict lookup of `analyze_escape_edge_flow` (lines 103-105):
the flow value is 0 unless the solved assignment holds the `(source, dest)` pair. -/
def flow_value_of (flow_dict : List ((Nat × Nat) × Int)) (source dest : Nat) : Int :=
  match flow_dict.find? (fun p => decide (p.1 = (source, dest))) with
  | some p => p.2
  | none => 0

/-- `GammaControlIntegrator.analyze_escape_edge_flow` (lines 76-132): with no
escape edges return `[]`; otherwise report, for every escape edge whose looked-up
flow is strictly positive, a violation with `penalty_cost = flow * gamma_cost`. -/
def analyze_escape_edge_flow (escape_edges : List EscapeEdgeRec)
    (flow_dict : List ((Nat × Nat) × Int)) : List Violation :=
  if escape_edges = [] then []
  else escape_edges.filterMap fun e =>
    let flow_value := flow_value_of flow_dict e.source e.dest
    if 0 < flow_value then
      some ⟨e.source, e.dest, flow_value, e.cost, flow_value * e.cost⟩
    else none

theorem mem_analyze_escape_edge_flow {escape_edges : List EscapeEdgeRec}
    {flow_dict : List ((Nat × Nat) × Int)} (hne : escape_edges ≠ []) (v : Violation) :
    v ∈ analyze_escape_edge_flow escape_edges flow_dict ↔
      ∃ e ∈ escape_edges, 0 < flow_value_of flow_dict e.source e.dest ∧
        v = ⟨e.source, e.dest, flow_value_of flow_dict e.source e.dest, e.cost,
          flow_value_of flow_dict e.source e.dest * e.cost⟩ := by
  simp only [analyze_escape_edge_flow, if_neg hne, List.mem_filterMap]
  constructor
  · rintro ⟨e, he, hfe⟩
    by_cases h : 0 < flow_value_of flow_dict e.source e.dest
    · rw [if_pos h] at hfe
      exact ⟨e, he, h, (Option.some_inj.mp hfe).symm⟩
    · rw [if_neg h] at hfe
      cases hfe
  · rintro ⟨e, he, h, rfl⟩
    exact ⟨e, he, by rw [if_pos h]⟩

/-- C5: violation detection reports a violation for an escape edge iff its
assigned flow (0 for a pair absent from the assignment) is strictly positive,
with `penalty_cost = flow * gamma_cost`; an escape edge carrying flow 2 at
gamma 200 yields exactly one violation with penalty 400. -/
theorem C5_violation_detection (escape_edges : List EscapeEdgeRec)
    (flow_dict : List ((Nat × Nat) × Int)) :
    (∀ e ∈ escape_edges,
      ((∃ v ∈ analyze_escape_edge_flow escape_edges flow_dict,
          v.source = e.source ∧ v.dest = e.dest) ↔
        0 < flow_value_of flow_dict e.source e.dest)) ∧
    (∀ v ∈ analyze_escape_edge_flow escape_edges flow_dict,
      v.penalty_cost = v.flow * v.gamma_cost ∧ 0 < v.flow ∧
        v.flow = flow_value_of flow_dict v.source v.dest) ∧
    analyze_escape_edge_flow [⟨81, 82, 200⟩] [((81, 82), 2)] = [⟨81, 82, 2, 200, 400⟩] := by
  have hne : ∀ e ∈ escape_edges, escape_edges ≠ [] := by
    intro e he h
    rw [h] at he
    cases he
  refine ⟨fun e he => ?_, fun v hv => ?_, by decide⟩
  · constructor
    · rintro ⟨v, hv, hsrc, hdst⟩
      obtain ⟨e', -, hpos, rfl⟩ := (mem_analyze_escape_edge_flow (hne e he) v).mp hv
      simp only at hsrc hdst
      rw [hsrc, hdst] at hpos
      exact hpos
    · intro hpos
      exact ⟨⟨e.source, e.dest, flow_value_of flow_dict e.source e.dest, e.cost,
          flow_value_of flow_dict e.source e.dest * e.cost⟩,
        (mem_analyze_escape_edge_flow (hne e he) _).mpr ⟨e, he, hpos, rfl⟩, rfl, rfl⟩
  · have hne' : escape_edges ≠ [] := by
      intro h
      rw [h] at hv
      simp [analyze_escape_edge_flow] at hv
    obtain ⟨e, -, hpos, rfl⟩ := (mem_analyze_escape_edge_flow hne' v).mp hv
    exact ⟨rfl, hpos, rfl⟩

theorem C5_violation_detection_witness :
    ∃ v ∈ analyze_escape_edge_flow [⟨81, 82, 200⟩] [((81, 82), 2)],
      v.source = (81 : Nat) ∧ v.dest = (82 : Nat) :=
  ((C5_violation_detection [⟨81, 82, 200⟩] [((81, 82), 2)]).1
    ⟨81, 82, 200⟩ (by decide)).mpr (by decide)

/-- The graph-processor's working collections consumed by the controller:
`ts_nodes` (node ids) and `ts_edges`.  (`map_nodes` and `tsedges` mirror these
two and carry no extra information used by the claims.) -/
structure GraphState where
  ts_nodes : List Nat
  ts_edges : List Edge
deriving DecidableEq, Repr

/-- The controller's mutable artifact ledger: `self._omega`,
`self._all_additional_nodes`, `self._all_additional_edges`,
`self._virtual_node_demands` (lines 17-31).  The additional-node set and the
demand dict are modelled as lists; all ids put into them are freshly allocated,
so list membership agrees with set/dict membership. -/
structure CtrlState where
  omega : List Edge
  all_additional_nodes : List Nat
  all_additional_edges : List Edge
  virtual_node_demands : List (Nat × Int)
deriving DecidableEq, Repr

/-- The controller state right after `__init__`: every ledger field empty. -/
def CtrlState.clean : CtrlState := ⟨[], [], [], []⟩

/-- Modelled from the spec: the graph-processor collaborator's `get_max_id()`
(§6, "mutable access to node list, edge list, an id→node map, `get_max_id()`").
The collaborator class (`model/Graph.py`) is not among the sources; per §3 and
§4.7 it returns the graph's current maximum node id. -/
def get_max_id (g : GraphState) : Nat :=
  g.ts_nodes.foldr max 0

/-- One entry of `self.restrictions`:
`(restriction_edges, timeframe, U, priority, gamma, k)` (line 14), with the
timeframe's two entries as separate fields. -/
structure RestrictionSpec where
  restriction_edges : List (Nat × Nat)
  start_time_frame : Int
  end_time_frame : Int
  U : Int
  priority : ℚ
  gamma : Option ℚ
  k : ℚ
deriving DecidableEq, Repr

/-- `validate_restriction` (lines 130-140) on the typed spec: edge list
non-empty, `start <= end`, `U >= 0` (the shape checks on the timeframe and the
edge pairs are enforced by the types here). -/
def validate_restriction (r : RestrictionSpec) : Bool :=
  decide (r.restriction_edges ≠ [] ∧ r.start_time_frame ≤ r.end_time_frame ∧ 0 ≤ r.U)

/-- Python's `int(round(x))` on an exact value: round half to even. -/
def py_round (q : ℚ) : Int :=
  if q - ⌊q⌋ < 1 / 2 then ⌊q⌋
  else if 1 / 2 < q - ⌊q⌋ then ⌊q⌋ + 1
  else if ⌊q⌋ % 2 = 0 then ⌊q⌋ else ⌊q⌋ + 1

/-- `identify_restricted_nodes` (lines 346-357): the endpoints of the omega
edges.  The source collects them into a set; only membership is ever used. -/
def identify_restricted_nodes (omega : List Edge) : List Nat :=
  (omega.map fun e => e.source) ++ (omega.map fun e => e.dest)

/-- `calculate_incoming_capacity_for_restricted_nodes` (lines 359-376) as the
finitely-supported map it builds: total capacity of edges entering `v` from
outside the restricted node set (0 for any other key, as for a `defaultdict`). -/
def calculate_incoming_capacity_for_restricted_nodes (TSG : List Edge)
    (restricted_nodes : List Nat) : Nat → Int :=
  fun v =>
    ((TSG.filter fun e => decide (e.dest = v ∧ v ∈ restricted_nodes ∧
      e.source ∉ restricted_nodes)).map fun e => e.cap).sum

/-- `calculate_outgoing_capacity_for_restricted_nodes` (lines 378-395),
symmetric to the incoming map. -/
def calculate_outgoing_capacity_for_restricted_nodes (TSG : List Edge)
    (restricted_nodes : List Nat) : Nat → Int :=
  fun u =>
    ((TSG.filter fun e => decide (e.source = u ∧ u ∈ restricted_nodes ∧
      e.dest ∉ restricted_nodes)).map fun e => e.cap).sum

/-- The external max-flow capability: `calculate_max_flow` (lines 397-441)
builds an auxiliary `networkx` digraph from the omega edges and the two boundary
capacity maps and calls `nx.maximum_flow_value`; the solver itself is an
external collaborator (spec §4.4, §6), so the whole probe is a parameter. -/
def MaxFlowProbe : Type :=
  List Edge → (Nat → Int) → (Nat → Int) → Int

/-- The combined controller/graph state threaded through one apply cycle:
the local `max_node_id_val` counter (line 453) plus the live graph and ledger. -/
structure ApplyState where
  max_node_id_val : Nat
  g : GraphState
  ctrl : CtrlState
deriving DecidableEq, Repr

/-- The inner loop of `apply_restriction` over the omega edges of one
restriction (lines 514-544): per omega edge, allocate two fresh intermediate
node ids, append them to the graph's node list and the ledger, and record the
five replacement edges. -/
def build_escape_edges (vS_global_id vD_global_id : Nat) :
    List Edge → ApplyState → ApplyState
  | [], st => st
  | e :: rest, st =>
    let v_i1_id := st.max_node_id_val + 1
    let v_i2_id := st.max_node_id_val + 2
    let new_edges_for_this_arc : List Edge := [
      ⟨e.source, v_i1_id, e.lower, e.cap, e.cost⟩,
      ⟨v_i1_id, v_i2_id, e.lower, e.cap, 0⟩,
      ⟨v_i2_id, e.dest, e.lower, e.cap, 0⟩,
      ⟨vS_global_id, v_i1_id, 0, e.cap, 0⟩,
      ⟨v_i2_id, vD_global_id, 0, e.cap, 0⟩]
    build_escape_edges vS_global_id vD_global_id rest
      { max_node_id_val := st.max_node_id_val + 2
        g := { st.g with ts_nodes := st.g.ts_nodes ++ [v_i1_id, v_i2_id] }
        ctrl := { st.ctrl with
          all_additional_nodes := st.ctrl.all_additional_nodes ++ [v_i1_id, v_i2_id]
          all_additional_edges := st.ctrl.all_additional_edges ++ new_edges_for_this_arc } }

/-- The body of the restriction loop of `apply_restriction` (lines 456-553):
extract omega (against the live edge list, which is unchanged until the batch
commit), skip on empty omega, record omega in the ledger, probe the max flow,
skip when no virtual flow is needed, otherwise resolve gamma, allocate the
global escape pair, record its demands, build the per-edge escape topology and
append the escape edge. -/
def process_restriction (probe : MaxFlowProbe) (M : Nat) (min_gamma : ℚ)
    (r : RestrictionSpec) (st : ApplyState) : ApplyState :=
  let omega := identify_restricted_edges M r.restriction_edges
    r.start_time_frame r.end_time_frame st.g.ts_edges
  if omega = [] then st
  else
    let st1 : ApplyState :=
      { st with ctrl := { st.ctrl with omega := st.ctrl.omega ++ omega } }
    let restricted := identify_restricted_nodes omega
    let incoming := calculate_incoming_capacity_for_restricted_nodes st1.g.ts_edges restricted
    let outgoing := calculate_outgoing_capacity_for_restricted_nodes st1.g.ts_edges restricted
    let flow_F := probe omega incoming outgoing
    let virtual_flow_needed := calculate_virtual_flow flow_F r.U
    if virtual_flow_needed ≤ 0 then st1
    else
      let final_gamma := py_round (match r.gamma with
        | some gc => gc
        | none => calculate_default_gamma st1.g.ts_edges r.priority r.k min_gamma)
      let vS_global_id := st1.max_node_id_val + 1
      let vD_global_id := st1.max_node_id_val + 2
      let st2 : ApplyState :=
        { max_node_id_val := st1.max_node_id_val + 2
          g := { st1.g with ts_nodes := st1.g.ts_nodes ++ [vS_global_id, vD_global_id] }
          ctrl := { st1.ctrl with
            all_additional_nodes := st1.ctrl.all_additional_nodes ++ [vS_global_id, vD_global_id]
            virtual_node_demands := st1.ctrl.virtual_node_demands ++
              [(vS_global_id, virtual_flow_needed), (vD_global_id, -virtual_flow_needed)] } }
      let st3 := build_escape_edges vS_global_id vD_global_id omega st2
      { st3 with ctrl := { st3.ctrl with
          all_additional_edges := st3.ctrl.all_additional_edges ++
            [⟨vS_global_id, vD_global_id, 0, virtual_flow_needed, final_gamma⟩] } }

/-- The batch commit of `apply_restriction` (lines 561-588): if any additional
edges were produced, remove every endpoint pair recorded in `self._omega` from
the live edge list, then append all additional edges. -/
def commit_additional_edges (st : ApplyState) : ApplyState :=
  if st.ctrl.all_additional_edges = [] then st
  else
    let edges_to_remove_tuples := st.ctrl.omega.map fun e => (e.source, e.dest)
    { st with g := { st.g with ts_edges :=
        (st.g.ts_edges.filter fun e =>
          decide ((e.source, e.dest) ∉ edges_to_remove_tuples))
          ++ st.ctrl.all_additional_edges } }

/-- `remove_artificial_artifact` (lines 47-119): drop the ledger's additional
nodes from the node list, drop every edge whose endpoint pair matches an
additional edge, re-add the set of recorded omega edges (the source's guard
`any((e[0], e[1]) in additional_edges_set ...)` is true exactly when the
additional-edge list is non-empty), and clear the ledger. -/
def remove_artificial_artifact (g : GraphState) (ctrl : CtrlState) :
    GraphState × CtrlState :=
  let g1 := if ctrl.all_additional_nodes = [] then g
    else { g with ts_nodes :=
      g.ts_nodes.filter fun n => decide (n ∉ ctrl.all_additional_nodes) }
  let g2 := if ctrl.all_additional_edges = [] then g1
    else
      let additional_edges_set := ctrl.all_additional_edges.map fun e => (e.source, e.dest)
      { g1 with ts_edges := g1.ts_edges.filter fun e =>
          decide ((e.source, e.dest) ∉ additional_edges_set) }
  let original_edges_to_re_add :=
    if ctrl.all_additional_edges = [] then [] else ctrl.omega.dedup
  let g3 := if original_edges_to_re_add = [] then g2
    else { g2 with ts_edges := g2.ts_edges ++ original_edges_to_re_add }
  (g3, CtrlState.clean)

/-- `apply_restriction` (lines 443-589): return unchanged on an empty batch
(`get_restrictions` is falsy); run the cleanup first when the ledger is dirty;
seed `max_node_id_val` once from the graph's maximum id; process every
restriction in order; commit once at the end. -/
def apply_restriction (probe : MaxFlowProbe) (M : Nat) (min_gamma : ℚ)
    (restrictions : List RestrictionSpec) (g : GraphState) (ctrl : CtrlState) :
    ApplyState :=
  if restrictions = [] then ⟨get_max_id g, g, ctrl⟩
  else
    let gc := if ctrl.all_additional_nodes ≠ [] ∨ ctrl.all_additional_edges ≠ [] then
        remove_artificial_artifact g ctrl
      else (g, ctrl)
    let st0 : ApplyState := ⟨get_max_id gc.1, gc.1, gc.2⟩
    commit_additional_edges
      (restrictions.foldl (fun st r => process_restriction probe M min_gamma r st) st0)

/-- `get_virtual_node_demand` (lines 784-789): demand of a node id, 0 when the
id is not a virtual restriction node. -/
def get_virtual_node_demand (virtual_node_demands : List (Nat × Int))
    (node_id : Nat) : Int :=
  match virtual_node_demands.find? (fun p => decide (p.1 = node_id)) with
  | some p => p.2
  | none => 0

/-- C1: the spec says a restriction with non-empty omega but zero virtual flow
makes no topology change and contributes nothing to the ledger.  The code
appends that restriction's omega to `self._omega` (line 471) before the
virtual-flow check (line 484), and the batch commit (line 563) removes every
pair of `self._omega` once any restriction produced additional edges.  Witness
run: restriction 1 (spatial edge (1,2), timeframe [0,3], U = 100) has omega
`{(4,5), (7,8)}` and virtual flow 0, restriction 2 (spatial edge (1,1),
timeframe [0,1], U = 0) has virtual flow 1; after the batch, restriction 1's
omega edge `(4,5,0,1,5)` has been removed from the live edge set with no
replacement topology, contradicting the claim. -/
theorem C1_zero_flow_restriction_loses_omega_edges :
    let g : GraphState := ⟨[1, 2, 3, 4, 5, 6, 7, 8, 9],
      [⟨1, 4, 0, 1, 10⟩, ⟨2, 5, 0, 1, 10⟩, ⟨4, 7, 0, 1, 10⟩, ⟨5, 8, 0, 1, 10⟩,
       ⟨1, 2, 0, 1, 5⟩, ⟨4, 5, 0, 1, 5⟩, ⟨7, 8, 0, 1, 5⟩]⟩
    let probe : MaxFlowProbe := fun om _ _ => if om.length = 1 then 1 else 2
    let r1 : RestrictionSpec := ⟨[(1, 2)], 0, 3, 100, 1, some 200, 2⟩
    let r2 : RestrictionSpec := ⟨[(1, 1)], 0, 1, 0, 1, some 200, 2⟩
    let st := apply_restriction probe 3 200 [r1, r2] g CtrlState.clean
    identify_restricted_edges 3 [(1, 2)] 0 3 g.ts_edges =
      [⟨4, 5, 0, 1, 5⟩, ⟨7, 8, 0, 1, 5⟩] ∧
    (∀ i o : Nat → Int,
      calculate_virtual_flow (probe [⟨4, 5, 0, 1, 5⟩, ⟨7, 8, 0, 1, 5⟩] i o) 100 = 0) ∧
    (⟨4, 5, 0, 1, 5⟩ : Edge) ∈ g.ts_edges ∧
    (⟨4, 5, 0, 1, 5⟩ : Edge) ∉ st.g.ts_edges ∧
    (⟨7, 8, 0, 1, 5⟩ : Edge) ∉ st.g.ts_edges := by
  refine ⟨by decide, fun i o => rfl, by decide, by decide, by decide⟩

/-- For the C3 comparison, following the spec's words (§4.6 step 2, "allocate
two fresh intermediate artificial node ids"): the intermediate ids for `n`
omega edges, allocated consecutively after counter value `c`. -/
def spec_intermediate_nodes (c : Nat) : Nat → List Nat
  | 0 => []
  | n + 1 => (c + 1) :: (c + 2) :: spec_intermediate_nodes (c + 2) n

/-- For the C3 comparison, following the spec's words (§4.6 step 2): per omega
edge `(u, v, 0, cap, cost)` the five replacement edges `(u, v_i1, 0, cap, cost)`,
`(v_i1, v_i2, 0, cap, 0)`, `(v_i2, v, 0, cap, 0)`, `(vS_global, v_i1, 0, cap, 0)`,
`(v_i2, vD_global, 0, cap, 0)`, with the intermediate ids allocated consecutively
after counter value `c`. -/
def spec_replacement_edges (vS_global_id vD_global_id c : Nat) : List Edge → List Edge
  | [] => []
  | e :: rest =>
    ⟨e.source, c + 1, 0, e.cap, e.cost⟩ ::
    ⟨c + 1, c + 2, 0, e.cap, 0⟩ ::
    ⟨c + 2, e.dest, 0, e.cap, 0⟩ ::
    ⟨vS_global_id, c + 1, 0, e.cap, 0⟩ ::
    ⟨c + 2, vD_global_id, 0, e.cap, 0⟩ ::
    spec_replacement_edges vS_global_id vD_global_id (c + 2) rest

theorem mem_spec_intermediate_nodes {c n x : Nat} :
    x ∈ spec_intermediate_nodes c n ↔ c < x ∧ x ≤ c + 2 * n := by
  induction n generalizing c with
  | zero =>
    simp only [spec_intermediate_nodes, List.not_mem_nil, false_iff]
    omega
  | succ n ih =>
    simp only [spec_intermediate_nodes, List.mem_cons, ih]
    omega

theorem spec_intermediate_nodes_length (c n : Nat) :
    (spec_intermediate_nodes c n).length = 2 * n := by
  induction n generalizing c with
  | zero => rfl
  | succ n ih =>
    simp only [spec_intermediate_nodes, List.length_cons, ih]
    omega

theorem spec_intermediate_nodes_sorted (c n : Nat) :
    (spec_intermediate_nodes c n).Sorted (· < ·) := by
  induction n generalizing c with
  | zero => simp [spec_intermediate_nodes]
  | succ n ih =>
    simp only [spec_intermediate_nodes, List.sorted_cons, List.mem_cons]
    refine ⟨?_, ?_, ih (c + 2)⟩
    · intro b hb
      rcases hb with rfl | hb
      · omega
      · have := mem_spec_intermediate_nodes.mp hb
        omega
    · intro b hb
      have := mem_spec_intermediate_nodes.mp hb
      omega

theorem spec_replacement_edges_endpoint (vS_global_id vD_global_id : Nat)
    (omega : List Edge) :
    ∀ (c : Nat), ∀ e ∈ spec_replacement_edges vS_global_id vD_global_id c omega,
      c < e.source ∨ c < e.dest := by
  induction omega with
  | nil =>
    intro c e he
    cases he
  | cons a rest ih =>
    intro c e he
    simp only [spec_replacement_edges, List.mem_cons] at he
    rcases he with rfl | rfl | rfl | rfl | rfl | he
    · right; show c < c + 1; omega
    · left; show c < c + 1; omega
    · left; show c < c + 2; omega
    · right; show c < c + 1; omega
    · left; show c < c + 2; omega
    · rcases ih (c + 2) e he with h | h
      · left; omega
      · right; omega

theorem spec_replacement_edges_length (vS_global_id vD_global_id : Nat)
    (omega : List Edge) :
    ∀ (c : Nat),
      (spec_replacement_edges vS_global_id vD_global_id c omega).length =
        5 * omega.length := by
  induction omega with
  | nil => intro c; rfl
  | cons a rest ih =>
    intro c
    simp only [spec_replacement_edges, List.length_cons, ih (c + 2), List.length_cons]
    omega

theorem spec_replacement_edges_cost (vS_global_id vD_global_id : Nat)
    (omega : List Edge) :
    ∀ (c : Nat), ∀ e ∈ spec_replacement_edges vS_global_id vD_global_id c omega,
      e.cost ≠ 0 → ∃ e0 ∈ omega, e.source = e0.source ∧ e.cost = e0.cost := by
  induction omega with
  | nil =>
    intro c e he
    cases he
  | cons a rest ih =>
    intro c e he hc
    simp only [spec_replacement_edges, List.mem_cons] at he
    rcases he with rfl | rfl | rfl | rfl | rfl | he
    · exact ⟨a, List.mem_cons_self a rest, rfl, rfl⟩
    · cases hc rfl
    · cases hc rfl
    · cases hc rfl
    · cases hc rfl
    · obtain ⟨e0, he0, h1, h2⟩ := ih (c + 2) e he hc
      exact ⟨e0, List.mem_cons_of_mem a he0, h1, h2⟩

theorem build_escape_edges_eq (vS_global_id vD_global_id : Nat) (omega : List Edge)
    (st : ApplyState) (hlow : ∀ e ∈ omega, e.lower = 0) :
    build_escape_edges vS_global_id vD_global_id omega st =
      { max_node_id_val := st.max_node_id_val + 2 * omega.length
        g := { st.g with ts_nodes :=
          st.g.ts_nodes ++ spec_intermediate_nodes st.max_node_id_val omega.length }
        ctrl := { st.ctrl with
          all_additional_nodes := st.ctrl.all_additional_nodes ++
            spec_intermediate_nodes st.max_node_id_val omega.length
          all_additional_edges := st.ctrl.all_additional_edges ++
            spec_replacement_edges vS_global_id vD_global_id st.max_node_id_val omega } } := by
  induction omega generalizing st with
  | nil =>
    obtain ⟨c, ⟨ns, es⟩, ⟨om, an, ae, vd⟩⟩ := st
    simp [build_escape_edges, spec_intermediate_nodes, spec_replacement_edges]
  | cons e rest ih =>
    obtain ⟨c, ⟨ns, es⟩, ⟨om, an, ae, vd⟩⟩ := st
    have hle : e.lower = 0 := hlow e (List.mem_cons_self e rest)
    rw [build_escape_edges]
    rw [ih _ (fun x hx => hlow x (List.mem_cons_of_mem e hx))]
    simp only [spec_intermediate_nodes, spec_replacement_edges, hle,
      List.length_cons, ApplyState.mk.injEq, GraphState.mk.injEq, CtrlState.mk.injEq,
      List.append_assoc, List.cons_append, List.nil_append, and_true, true_and, and_self]
    all_goals omega

theorem process_restriction_empty (probe : MaxFlowProbe) (M : Nat) (min_gamma : ℚ)
    (r : RestrictionSpec) (st : ApplyState)
    (h : identify_restricted_edges M r.restriction_edges r.start_time_frame
      r.end_time_frame st.g.ts_edges = []) :
    process_restriction probe M min_gamma r st = st := by
  simp only [process_restriction, h]
  simp

theorem process_restriction_skip (probe : MaxFlowProbe) (M : Nat) (min_gamma : ℚ)
    (r : RestrictionSpec) (st : ApplyState) (ω : List Edge)
    (hω : identify_restricted_edges M r.restriction_edges r.start_time_frame
      r.end_time_frame st.g.ts_edges = ω) (hne : ω ≠ [])
    (hflow : calculate_virtual_flow (probe ω
      (calculate_incoming_capacity_for_restricted_nodes st.g.ts_edges
        (identify_restricted_nodes ω))
      (calculate_outgoing_capacity_for_restricted_nodes st.g.ts_edges
        (identify_restricted_nodes ω))) r.U ≤ 0) :
    process_restriction probe M min_gamma r st =
      { st with ctrl := { st.ctrl with omega := st.ctrl.omega ++ ω } } := by
  obtain ⟨c, ⟨ns, es⟩, ⟨om, an, ae, vd⟩⟩ := st
  simp only at hω hflow
  simp only [process_restriction, hω]
  rw [if_neg hne]
  simp only [if_pos hflow]

theorem process_restriction_build (probe : MaxFlowProbe) (M : Nat) (min_gamma : ℚ)
    (r : RestrictionSpec) (st : ApplyState) (ω : List Edge)
    (hω : identify_restricted_edges M r.restriction_edges r.start_time_frame
      r.end_time_frame st.g.ts_edges = ω) (hne : ω ≠ [])
    (hflow : 0 < calculate_virtual_flow (probe ω
      (calculate_incoming_capacity_for_restricted_nodes st.g.ts_edges
        (identify_restricted_nodes ω))
      (calculate_outgoing_capacity_for_restricted_nodes st.g.ts_edges
        (identify_restricted_nodes ω))) r.U) :
    process_restriction probe M min_gamma r st =
      { max_node_id_val := st.max_node_id_val + 2 + 2 * ω.length
        g := { st.g with ts_nodes := st.g.ts_nodes ++
          (st.max_node_id_val + 1) :: (st.max_node_id_val + 2) ::
            spec_intermediate_nodes (st.max_node_id_val + 2) ω.length }
        ctrl :=
          { omega := st.ctrl.omega ++ ω
            all_additional_nodes := st.ctrl.all_additional_nodes ++
              (st.max_node_id_val + 1) :: (st.max_node_id_val + 2) ::
                spec_intermediate_nodes (st.max_node_id_val + 2) ω.length
            all_additional_edges := st.ctrl.all_additional_edges ++
              spec_replacement_edges (st.max_node_id_val + 1) (st.max_node_id_val + 2)
                (st.max_node_id_val + 2) ω ++
              [⟨st.max_node_id_val + 1, st.max_node_id_val + 2, 0,
                calculate_virtual_flow (probe ω
                  (calculate_incoming_capacity_for_restricted_nodes st.g.ts_edges
                    (identify_restricted_nodes ω))
                  (calculate_outgoing_capacity_for_restricted_nodes st.g.ts_edges
                    (identify_restricted_nodes ω))) r.U,
                py_round (match r.gamma with
                  | some gc => gc
                  | none => calculate_default_gamma st.g.ts_edges r.priority r.k min_gamma)⟩]
            virtual_node_demands := st.ctrl.virtual_node_demands ++
              [(st.max_node_id_val + 1, calculate_virtual_flow (probe ω
                  (calculate_incoming_capacity_for_restricted_nodes st.g.ts_edges
                    (identify_restricted_nodes ω))
                  (calculate_outgoing_capacity_for_restricted_nodes st.g.ts_edges
                    (identify_restricted_nodes ω))) r.U),
                (st.max_node_id_val + 2, -(calculate_virtual_flow (probe ω
                  (calculate_incoming_capacity_for_restricted_nodes st.g.ts_edges
                    (identify_restricted_nodes ω))
                  (calculate_outgoing_capacity_for_restricted_nodes st.g.ts_edges
                    (identify_restricted_nodes ω))) r.U))] } } := by
  obtain ⟨c, ⟨ns, es⟩, ⟨om, an, ae, vd⟩⟩ := st
  simp only at hω hflow
  have hlow : ∀ e ∈ ω, e.lower = 0 := by
    intro e he
    rw [← hω] at he
    exact identify_restricted_edges_lower he
  simp only [process_restriction, hω]
  rw [if_neg hne]
  rw [if_neg (by omega)]
  rw [build_escape_edges_eq _ _ _ _ hlow]
  simp only [ApplyState.mk.injEq, GraphState.mk.injEq, CtrlState.mk.injEq,
    List.append_assoc, List.cons_append, List.nil_append, and_true, true_and, and_self]

theorem le_foldr_max {l : List Nat} {n : Nat} (h : n ∈ l) : n ≤ l.foldr max 0 := by
  induction l with
  | nil => cases h
  | cons a l ih =>
    rcases List.mem_cons.mp h with rfl | h
    · exact le_max_left _ _
    · exact le_trans (ih h) (le_max_right _ _)

theorem mem_le_get_max_id {g : GraphState} {n : Nat} (h : n ∈ g.ts_nodes) :
    n ≤ get_max_id g :=
  le_foldr_max h

/-- The bookkeeping invariant maintained across the restriction loop of one
apply cycle started from a clean ledger over the pre-batch graph `g0`. -/
structure BatchInv (g0 : GraphState) (st : ApplyState) : Prop where
  edges_eq : st.g.ts_edges = g0.ts_edges
  nodes_eq : st.g.ts_nodes = g0.ts_nodes ++ st.ctrl.all_additional_nodes
  seed_le : get_max_id g0 ≤ st.max_node_id_val
  nodes_gt : ∀ n ∈ st.ctrl.all_additional_nodes, get_max_id g0 < n
  nodes_le : ∀ n ∈ st.ctrl.all_additional_nodes, n ≤ st.max_node_id_val
  nodes_sorted : st.ctrl.all_additional_nodes.Sorted (· < ·)
  edges_art : ∀ e ∈ st.ctrl.all_additional_edges,
    get_max_id g0 < e.source ∨ get_max_id g0 < e.dest
  omega_sub : (∀ x ∈ g0.ts_edges, x.lower = 0) → ∀ e ∈ st.ctrl.omega, e ∈ g0.ts_edges
  demands_sum : ((st.ctrl.virtual_node_demands.map Prod.snd).sum : Int) = 0

theorem batchInv_init (g0 : GraphState) :
    BatchInv g0 ⟨get_max_id g0, g0, CtrlState.clean⟩ := by
  constructor <;> simp [CtrlState.clean]

theorem process_restriction_inv (probe : MaxFlowProbe) (M : Nat) (min_gamma : ℚ)
    (r : RestrictionSpec) {g0 : GraphState} {st : ApplyState}
    (hinv : BatchInv g0 st) :
    BatchInv g0 (process_restriction probe M min_gamma r st) := by
  by_cases hne : identify_restricted_edges M r.restriction_edges r.start_time_frame
      r.end_time_frame st.g.ts_edges = []
  · rw [process_restriction_empty probe M min_gamma r st hne]
    exact hinv
  · have homega_sub : (∀ x ∈ g0.ts_edges, x.lower = 0) →
        ∀ e ∈ identify_restricted_edges M r.restriction_edges r.start_time_frame
          r.end_time_frame st.g.ts_edges, e ∈ g0.ts_edges := by
      intro hlow e he
      rw [hinv.edges_eq] at he
      exact identify_restricted_edges_mem hlow he
    by_cases hflow : calculate_virtual_flow (probe
        (identify_restricted_edges M r.restriction_edges r.start_time_frame
          r.end_time_frame st.g.ts_edges)
        (calculate_incoming_capacity_for_restricted_nodes st.g.ts_edges
          (identify_restricted_nodes (identify_restricted_edges M r.restriction_edges
            r.start_time_frame r.end_time_frame st.g.ts_edges)))
        (calculate_outgoing_capacity_for_restricted_nodes st.g.ts_edges
          (identify_restricted_nodes (identify_restricted_edges M r.restriction_edges
            r.start_time_frame r.end_time_frame st.g.ts_edges)))) r.U ≤ 0
    · rw [process_restriction_skip probe M min_gamma r st _ rfl hne hflow]
      refine ⟨hinv.edges_eq, hinv.nodes_eq, hinv.seed_le, hinv.nodes_gt, hinv.nodes_le,
        hinv.nodes_sorted, hinv.edges_art, ?_, hinv.demands_sum⟩
      intro hlow e he
      rcases List.mem_append.mp he with h | h
      · exact hinv.omega_sub hlow e h
      · exact homega_sub hlow e h
    · rw [process_restriction_build probe M min_gamma r st _ rfl hne (by omega)]
      dsimp only
      set ω := identify_restricted_edges M r.restriction_edges r.start_time_frame
        r.end_time_frame st.g.ts_edges with hω
      set c := st.max_node_id_val with hc
      have hblock : ∀ n ∈ (c + 1) :: (c + 2) :: spec_intermediate_nodes (c + 2) ω.length,
          c < n ∧ n ≤ c + 2 + 2 * ω.length := by
        intro n hn
        rcases List.mem_cons.mp hn with rfl | hn
        · omega
        · rcases List.mem_cons.mp hn with rfl | hn
          · omega
          · have := mem_spec_intermediate_nodes.mp hn
            omega
      refine ⟨hinv.edges_eq, ?_, ?_, ?_, ?_, ?_, ?_, ?_, ?_⟩
      · dsimp only
        simp only [hinv.nodes_eq, List.append_assoc]
      · dsimp only
        have := hinv.seed_le
        omega
      · dsimp only
        intro n hn
        rcases List.mem_append.mp hn with h | h
        · exact hinv.nodes_gt n h
        · have h1 := (hblock n h).1
          have := hinv.seed_le
          omega
      · dsimp only
        intro n hn
        rcases List.mem_append.mp hn with h | h
        · have := hinv.nodes_le n h
          omega
        · exact (hblock n h).2
      · dsimp only
        refine List.pairwise_append.mpr ⟨hinv.nodes_sorted, ?_, ?_⟩
        · refine List.pairwise_cons.mpr ⟨?_,
            List.pairwise_cons.mpr ⟨?_, spec_intermediate_nodes_sorted _ _⟩⟩
          · intro b hb
            rcases List.mem_cons.mp hb with rfl | hb
            · omega
            · have := mem_spec_intermediate_nodes.mp hb
              omega
          · intro b hb
            have := mem_spec_intermediate_nodes.mp hb
            omega
        · intro a ha b hb
          have h1 := hinv.nodes_le a ha
          have h2 := (hblock b hb).1
          omega
      · dsimp only
        intro e he
        rcases List.mem_append.mp he with he | he
        · rcases List.mem_append.mp he with he | he
          · exact hinv.edges_art e he
          · have := spec_replacement_edges_endpoint (c + 1) (c + 2) ω (c + 2) e he
            have := hinv.seed_le
            omega
        · rcases List.mem_cons.mp he with rfl | he
          · left
            have := hinv.seed_le
            show get_max_id g0 < c + 1
            omega
          · cases he
      · intro hlow e he
        rcases List.mem_append.mp he with h | h
        · exact hinv.omega_sub hlow e h
        · exact homega_sub hlow e h
      · have := hinv.demands_sum
        simp only [List.map_append, List.sum_append, List.map_cons, List.map_nil,
          List.sum_cons, List.sum_nil]
        omega

theorem foldl_process_inv (probe : MaxFlowProbe) (M : Nat) (min_gamma : ℚ)
    (batch : List RestrictionSpec) {g0 : GraphState} {st : ApplyState}
    (hinv : BatchInv g0 st) :
    BatchInv g0 (batch.foldl (fun s r => process_restriction probe M min_gamma r s) st) := by
  induction batch generalizing st with
  | nil => exact hinv
  | cons r rest ih =>
    exact ih (process_restriction_inv probe M min_gamma r hinv)

theorem commit_additional_edges_ctrl (st : ApplyState) :
    (commit_additional_edges st).ctrl = st.ctrl := by
  obtain ⟨c, ⟨ns, es⟩, ⟨om, an, ae, vd⟩⟩ := st
  by_cases h : ae = []
  · simp [commit_additional_edges, h]
  · simp [commit_additional_edges, h]

theorem commit_additional_edges_max (st : ApplyState) :
    (commit_additional_edges st).max_node_id_val = st.max_node_id_val := by
  obtain ⟨c, ⟨ns, es⟩, ⟨om, an, ae, vd⟩⟩ := st
  by_cases h : ae = []
  · simp [commit_additional_edges, h]
  · simp [commit_additional_edges, h]

theorem commit_additional_edges_nodes (st : ApplyState) :
    (commit_additional_edges st).g.ts_nodes = st.g.ts_nodes := by
  obtain ⟨c, ⟨ns, es⟩, ⟨om, an, ae, vd⟩⟩ := st
  by_cases h : ae = []
  · simp [commit_additional_edges, h]
  · simp [commit_additional_edges, h]

theorem commit_additional_edges_edges_of_eq (st : ApplyState)
    (h : st.ctrl.all_additional_edges = []) :
    (commit_additional_edges st).g.ts_edges = st.g.ts_edges := by
  obtain ⟨c, ⟨ns, es⟩, ⟨om, an, ae, vd⟩⟩ := st
  simp only at h
  simp [commit_additional_edges, h]

theorem commit_additional_edges_edges_of_ne (st : ApplyState)
    (h : st.ctrl.all_additional_edges ≠ []) :
    (commit_additional_edges st).g.ts_edges =
      (st.g.ts_edges.filter fun e =>
        decide ((e.source, e.dest) ∉ st.ctrl.omega.map fun x => (x.source, x.dest)))
        ++ st.ctrl.all_additional_edges := by
  obtain ⟨c, ⟨ns, es⟩, ⟨om, an, ae, vd⟩⟩ := st
  simp only at h
  simp [commit_additional_edges, h]

theorem apply_restriction_clean_eq (probe : MaxFlowProbe) (M : Nat) (min_gamma : ℚ)
    (batch : List RestrictionSpec) (g : GraphState) (hne : batch ≠ []) :
    apply_restriction probe M min_gamma batch g CtrlState.clean =
      commit_additional_edges
        (batch.foldl (fun st r => process_restriction probe M min_gamma r st)
          ⟨get_max_id g, g, CtrlState.clean⟩) := by
  simp only [apply_restriction, CtrlState.clean]
  rw [if_neg hne]
  simp

theorem remove_artificial_artifact_clean (g : GraphState) :
    remove_artificial_artifact g CtrlState.clean = (g, CtrlState.clean) := by
  obtain ⟨ns, es⟩ := g
  simp [remove_artificial_artifact, CtrlState.clean]

theorem remove_artificial_artifact_eq (g : GraphState) (ctrl : CtrlState) :
    remove_artificial_artifact g ctrl =
      (⟨(if ctrl.all_additional_nodes = [] then g.ts_nodes
          else g.ts_nodes.filter fun n => decide (n ∉ ctrl.all_additional_nodes)),
        (if ctrl.all_additional_edges = [] then g.ts_edges
          else g.ts_edges.filter fun e => decide ((e.source, e.dest) ∉
            ctrl.all_additional_edges.map fun x => (x.source, x.dest))) ++
          (if ctrl.all_additional_edges = [] then [] else ctrl.omega.dedup)⟩,
       CtrlState.clean) := by
  obtain ⟨ns, es⟩ := g
  obtain ⟨om, an, ae, vd⟩ := ctrl
  simp only [remove_artificial_artifact]
  by_cases hae : ae = []
  · by_cases han : an = []
    · simp [hae, han]
    · simp [hae, han]
  · by_cases hded : om.dedup = []
    · by_cases han : an = []
      · simp [hae, han, hded]
      · simp [hae, han, hded]
    · by_cases han : an = []
      · simp [hae, han, hded]
      · simp [hae, han, hded]

/-- C6: over one apply cycle started with a clean ledger, all node ids recorded
in the additional-node ledger come from the single counter seeded once from the
graph's pre-batch maximum id and incremented before each allocation, so they
are pairwise distinct and each is strictly greater than every node id present
in the graph before the batch started. -/
theorem C6_unique_id_allocation (probe : MaxFlowProbe) (M : Nat) (min_gamma : ℚ)
    (batch : List RestrictionSpec) (g : GraphState) :
    (apply_restriction probe M min_gamma batch g
      CtrlState.clean).ctrl.all_additional_nodes.Nodup ∧
    ∀ x ∈ (apply_restriction probe M min_gamma batch g
        CtrlState.clean).ctrl.all_additional_nodes,
      ∀ n ∈ g.ts_nodes, n < x := by
  by_cases hne : batch = []
  · subst hne
    constructor
    · simp [apply_restriction, CtrlState.clean]
    · intro x hx
      simp [apply_restriction, CtrlState.clean] at hx
  · rw [apply_restriction_clean_eq probe M min_gamma batch g hne,
      commit_additional_edges_ctrl]
    have hinv := foldl_process_inv probe M min_gamma batch (batchInv_init g)
    constructor
    · exact hinv.nodes_sorted.nodup
    · intro x hx n hn
      exact lt_of_le_of_lt (mem_le_get_max_id hn) (hinv.nodes_gt x hx)

theorem C6_unique_id_allocation_witness :
    (9 : Nat) < 10 :=
  (C6_unique_id_allocation (fun om _ _ => if om.length = 1 then 1 else 2) 3 200
    [⟨[(1, 1)], 0, 1, 0, 1, some 200, 2⟩]
    ⟨[1, 2, 3, 4, 5, 6, 7, 8, 9],
      [⟨1, 4, 0, 1, 10⟩, ⟨2, 5, 0, 1, 10⟩, ⟨4, 7, 0, 1, 10⟩, ⟨5, 8, 0, 1, 10⟩,
       ⟨1, 2, 0, 1, 5⟩, ⟨4, 5, 0, 1, 5⟩, ⟨7, 8, 0, 1, 5⟩]⟩).2
    10 (by decide) 9 (by decide)

/-- C10: the virtual-node-demand map sums to zero after every apply from a
clean ledger; each restriction that produces topology appends exactly the two
entries `+virtual_flow` (for `vS`) and `-virtual_flow` (for `vD`); cleanup
clears the map entirely; and the demand of any node id not in the map is 0. -/
theorem C10_virtual_demand_balance (probe : MaxFlowProbe) (M : Nat) (min_gamma : ℚ)
    (batch : List RestrictionSpec) (g : GraphState) :
    ((apply_restriction probe M min_gamma batch g
      CtrlState.clean).ctrl.virtual_node_demands.map Prod.snd).sum = 0 ∧
    (∀ (g' : GraphState) (ctrl' : CtrlState),
      (remove_artificial_artifact g' ctrl').2.virtual_node_demands = []) ∧
    (∀ (demands : List (Nat × Int)) (n : Nat), n ∉ demands.map Prod.fst →
      get_virtual_node_demand demands n = 0) := by
  refine ⟨?_, ?_, ?_⟩
  · by_cases hne : batch = []
    · subst hne
      simp [apply_restriction, CtrlState.clean]
    · rw [apply_restriction_clean_eq probe M min_gamma batch g hne,
        commit_additional_edges_ctrl]
      exact (foldl_process_inv probe M min_gamma batch (batchInv_init g)).demands_sum
  · intro g' ctrl'
    rw [remove_artificial_artifact_eq]
    rfl
  · intro demands n hn
    have hfind : demands.find? (fun p => decide (p.1 = n)) = none := by
      rw [List.find?_eq_none]
      intro x hx
      simp only [decide_eq_true_eq]
      intro hx1
      exact hn (hx1 ▸ List.mem_map_of_mem Prod.fst hx)
    simp [get_virtual_node_demand, hfind]

theorem C10_virtual_demand_balance_witness :
    get_virtual_node_demand [] 5 = 0 :=
  (C10_virtual_demand_balance (fun _ _ _ => 0) 1 200 [] ⟨[], []⟩).2.2 [] 5 (by decide)

/-- C2: for every valid batch applied from a clean ledger to a graph satisfying
the data-model invariants of §3 (lower bounds 0, pairwise distinct endpoint
pairs, edge endpoints drawn from the node list), running cleanup after apply
restores the node and edge sets to set equality with the pre-apply state; the
first cleanup leaves the ledger clean, and cleanup on an already-empty ledger
is a no-op on any graph. -/
theorem C2_cleanup_restores (probe : MaxFlowProbe) (M : Nat) (min_gamma : ℚ)
    (batch : List RestrictionSpec) (g : GraphState)
    (hvalid : ∀ r ∈ batch, validate_restriction r = true)
    (hlow : ∀ e ∈ g.ts_edges, e.lower = 0)
    (hpairs : (g.ts_edges.map fun e => (e.source, e.dest)).Nodup)
    (hends : ∀ e ∈ g.ts_edges, e.source ∈ g.ts_nodes ∧ e.dest ∈ g.ts_nodes) :
    (∀ n : Nat,
      n ∈ (remove_artificial_artifact
            (apply_restriction probe M min_gamma batch g CtrlState.clean).g
            (apply_restriction probe M min_gamma batch g CtrlState.clean).ctrl).1.ts_nodes
        ↔ n ∈ g.ts_nodes) ∧
    (∀ e : Edge,
      e ∈ (remove_artificial_artifact
            (apply_restriction probe M min_gamma batch g CtrlState.clean).g
            (apply_restriction probe M min_gamma batch g CtrlState.clean).ctrl).1.ts_edges
        ↔ e ∈ g.ts_edges) ∧
    (remove_artificial_artifact
        (apply_restriction probe M min_gamma batch g CtrlState.clean).g
        (apply_restriction probe M min_gamma batch g CtrlState.clean).ctrl).2 =
      CtrlState.clean ∧
    (∀ g' : GraphState,
      remove_artificial_artifact g' CtrlState.clean = (g', CtrlState.clean)) := by
  by_cases hne : batch = []
  · subst hne
    have happ : apply_restriction probe M min_gamma [] g CtrlState.clean =
        ⟨get_max_id g, g, CtrlState.clean⟩ := by
      simp [apply_restriction]
    rw [happ]
    refine ⟨?_, ?_, ?_, remove_artificial_artifact_clean⟩ <;>
      simp [remove_artificial_artifact_clean]
  · rw [apply_restriction_clean_eq probe M min_gamma batch g hne]
    have hinv := foldl_process_inv probe M min_gamma batch (batchInv_init g)
    set stf := batch.foldl (fun st r => process_restriction probe M min_gamma r st)
      ⟨get_max_id g, g, CtrlState.clean⟩ with hstf
    have hctrl := commit_additional_edges_ctrl stf
    have hnodes := commit_additional_edges_nodes stf
    have hAN : ∀ n ∈ g.ts_nodes, n ∉ stf.ctrl.all_additional_nodes := by
      intro n hn hmem
      exact absurd (hinv.nodes_gt n hmem) (not_lt.mpr (mem_le_get_max_id hn))
    have hedge_art_pairs : ∀ e ∈ g.ts_edges,
        (e.source, e.dest) ∉
          (stf.ctrl.all_additional_edges.map fun x => (x.source, x.dest)) := by
      intro e he hmem
      obtain ⟨a, hamem, heq⟩ := List.mem_map.mp hmem
      have hs : a.source = e.source := congrArg Prod.fst heq
      have hd : a.dest = e.dest := congrArg Prod.snd heq
      have h2 := mem_le_get_max_id (hends e he).1
      have h3 := mem_le_get_max_id (hends e he).2
      rcases hinv.edges_art a hamem with h | h
      · rw [hs] at h
        omega
      · rw [hd] at h
        omega
    have hnodes_final :
        (remove_artificial_artifact (commit_additional_edges stf).g
          (commit_additional_edges stf).ctrl).1.ts_nodes = g.ts_nodes := by
      rw [remove_artificial_artifact_eq]
      dsimp only
      rw [hctrl, hnodes, hinv.nodes_eq]
      by_cases han : stf.ctrl.all_additional_nodes = []
      · rw [if_pos han, han, List.append_nil]
      · rw [if_neg han, List.filter_append]
        have h1 : g.ts_nodes.filter
            (fun n => decide (n ∉ stf.ctrl.all_additional_nodes)) = g.ts_nodes :=
          List.filter_eq_self.mpr (fun a ha => decide_eq_true (hAN a ha))
        have h2 : stf.ctrl.all_additional_nodes.filter
            (fun n => decide (n ∉ stf.ctrl.all_additional_nodes)) = [] :=
          List.filter_eq_nil_iff.mpr (fun a ha => by simp [ha])
        rw [h1, h2, List.append_nil]
    have hedges_final :
        (remove_artificial_artifact (commit_additional_edges stf).g
          (commit_additional_edges stf).ctrl).1.ts_edges =
        (if stf.ctrl.all_additional_edges = [] then g.ts_edges
         else (g.ts_edges.filter fun e =>
            decide ((e.source, e.dest) ∉ stf.ctrl.omega.map fun x => (x.source, x.dest)))
          ++ stf.ctrl.omega.dedup) := by
      rw [remove_artificial_artifact_eq]
      dsimp only
      rw [hctrl]
      by_cases hae : stf.ctrl.all_additional_edges = []
      · simp only [if_pos hae]
        rw [commit_additional_edges_edges_of_eq stf hae, hinv.edges_eq, List.append_nil]
      · simp only [if_neg hae]
        rw [commit_additional_edges_edges_of_ne stf hae, hinv.edges_eq]
        have h2 : stf.ctrl.all_additional_edges.filter (fun e =>
            decide ((e.source, e.dest) ∉
              stf.ctrl.all_additional_edges.map fun x => (x.source, x.dest))) = [] :=
          List.filter_eq_nil_iff.mpr
            (fun a ha => by simp [List.mem_map_of_mem _ ha])
        have h1 : ((g.ts_edges.filter fun e =>
            decide ((e.source, e.dest) ∉ stf.ctrl.omega.map fun x => (x.source, x.dest))).filter
              (fun e => decide ((e.source, e.dest) ∉
                stf.ctrl.all_additional_edges.map fun x => (x.source, x.dest)))) =
            (g.ts_edges.filter fun e =>
              decide ((e.source, e.dest) ∉ stf.ctrl.omega.map fun x => (x.source, x.dest))) :=
          List.filter_eq_self.mpr (fun a ha =>
            decide_eq_true (hedge_art_pairs a (List.mem_filter.mp ha).1))
        rw [List.filter_append, h2, List.append_nil, h1]
    refine ⟨?_, ?_, ?_, remove_artificial_artifact_clean⟩
    · intro n
      rw [hnodes_final]
    · intro e
      rw [hedges_final]
      by_cases hae : stf.ctrl.all_additional_edges = []
      · rw [if_pos hae]
      · rw [if_neg hae]
        constructor
        · intro h
          rcases List.mem_append.mp h with h | h
          · exact (List.mem_filter.mp h).1
          · exact hinv.omega_sub hlow e (List.mem_dedup.mp h)
        · intro h
          by_cases hp : (e.source, e.dest) ∈ stf.ctrl.omega.map fun x => (x.source, x.dest)
          · obtain ⟨w, hw, hweq⟩ := List.mem_map.mp hp
            have hwg : w ∈ g.ts_edges := hinv.omega_sub hlow w hw
            have hwe : w = e :=
              List.inj_on_of_nodup_map hpairs hwg h hweq
            exact List.mem_append.mpr (Or.inr (List.mem_dedup.mpr (hwe ▸ hw)))
          · exact List.mem_append.mpr
              (Or.inl (List.mem_filter.mpr ⟨h, decide_eq_true hp⟩))
    · rw [remove_artificial_artifact_eq]

theorem C2_cleanup_restores_witness :
    remove_artificial_artifact ⟨[1], [⟨1, 1, 0, 1, 1⟩]⟩ CtrlState.clean =
      (⟨[1], [⟨1, 1, 0, 1, 1⟩]⟩, CtrlState.clean) :=
  (C2_cleanup_restores (fun _ _ _ => 0) 1 200 [] ⟨[], []⟩ (by simp)
    (by simp) (by simp) (by simp)).2.2.2 ⟨[1], [⟨1, 1, 0, 1, 1⟩]⟩

/-- C3: a restriction processed with positive virtual flow emits, per omega
edge `(u, v, 0, cap, cost)`, exactly the five replacement edges
`(u, v_i1, 0, cap, cost)`, `(v_i1, v_i2, 0, cap, 0)`, `(v_i2, v, 0, cap, 0)`,
`(vS_global, v_i1, 0, cap, 0)`, `(v_i2, vD_global, 0, cap, 0)` with fresh
consecutive intermediate ids, plus exactly one escape edge
`(vS_global, vD_global, 0, virtual_flow, gamma)` appended last; every
replacement edge other than the `(u, v_i1)` copies has cost 0; and exactly
`2 + 2·|omega|` fresh node ids are allocated for the restriction. -/
theorem C3_escape_topology_shape (probe : MaxFlowProbe) (M : Nat) (min_gamma : ℚ)
    (r : RestrictionSpec) (st : ApplyState) (ω : List Edge)
    (hω : identify_restricted_edges M r.restriction_edges r.start_time_frame
      r.end_time_frame st.g.ts_edges = ω) (hne : ω ≠ [])
    (hflow : 0 < calculate_virtual_flow (probe ω
      (calculate_incoming_capacity_for_restricted_nodes st.g.ts_edges
        (identify_restricted_nodes ω))
      (calculate_outgoing_capacity_for_restricted_nodes st.g.ts_edges
        (identify_restricted_nodes ω))) r.U) :
    (process_restriction probe M min_gamma r st).ctrl.all_additional_edges =
      st.ctrl.all_additional_edges ++
        spec_replacement_edges (st.max_node_id_val + 1) (st.max_node_id_val + 2)
          (st.max_node_id_val + 2) ω ++
        [⟨st.max_node_id_val + 1, st.max_node_id_val + 2, 0,
          calculate_virtual_flow (probe ω
            (calculate_incoming_capacity_for_restricted_nodes st.g.ts_edges
              (identify_restricted_nodes ω))
            (calculate_outgoing_capacity_for_restricted_nodes st.g.ts_edges
              (identify_restricted_nodes ω))) r.U,
          py_round (match r.gamma with
            | some gc => gc
            | none => calculate_default_gamma st.g.ts_edges r.priority r.k min_gamma)⟩] ∧
    (process_restriction probe M min_gamma r st).ctrl.all_additional_nodes =
      st.ctrl.all_additional_nodes ++
        (st.max_node_id_val + 1) :: (st.max_node_id_val + 2) ::
          spec_intermediate_nodes (st.max_node_id_val + 2) ω.length ∧
    (spec_replacement_edges (st.max_node_id_val + 1) (st.max_node_id_val + 2)
      (st.max_node_id_val + 2) ω).length = 5 * ω.length ∧
    ((process_restriction probe M min_gamma r st).ctrl.all_additional_nodes).length =
      st.ctrl.all_additional_nodes.length + 2 + 2 * ω.length ∧
    (∀ e ∈ spec_replacement_edges (st.max_node_id_val + 1) (st.max_node_id_val + 2)
        (st.max_node_id_val + 2) ω,
      e.cost ≠ 0 → ∃ e0 ∈ ω, e.source = e0.source ∧ e.cost = e0.cost) := by
  rw [process_restriction_build probe M min_gamma r st ω hω hne hflow]
  dsimp only
  refine ⟨rfl, rfl, spec_replacement_edges_length _ _ ω _, ?_,
    spec_replacement_edges_cost _ _ ω _⟩
  simp only [List.length_append, List.length_cons, spec_intermediate_nodes_length]
  omega

theorem C3_escape_topology_shape_witness :
    ((process_restriction (fun om _ _ => if om.length = 1 then 1 else 2) 3 200
      ⟨[(1, 1)], 0, 1, 0, 1, some 200, 2⟩
      ⟨9, ⟨[1, 2, 3, 4, 5, 6, 7, 8, 9],
        [⟨1, 4, 0, 1, 10⟩, ⟨2, 5, 0, 1, 10⟩, ⟨4, 7, 0, 1, 10⟩, ⟨5, 8, 0, 1, 10⟩,
         ⟨1, 2, 0, 1, 5⟩, ⟨4, 5, 0, 1, 5⟩, ⟨7, 8, 0, 1, 5⟩]⟩,
        CtrlState.clean⟩).ctrl.all_additional_nodes).length = 4 :=
  (C3_escape_topology_shape (fun om _ _ => if om.length = 1 then 1 else 2) 3 200
    ⟨[(1, 1)], 0, 1, 0, 1, some 200, 2⟩
    ⟨9, ⟨[1, 2, 3, 4, 5, 6, 7, 8, 9],
      [⟨1, 4, 0, 1, 10⟩, ⟨2, 5, 0, 1, 10⟩, ⟨4, 7, 0, 1, 10⟩, ⟨5, 8, 0, 1, 10⟩,
       ⟨1, 2, 0, 1, 5⟩, ⟨4, 5, 0, 1, 5⟩, ⟨7, 8, 0, 1, 5⟩]⟩,
      CtrlState.clean⟩
    [⟨1, 4, 0, 1, 10⟩] (by decide) (by decide) (by decide)).2.2.2.1

end PPSGame
